import Mathlib

/-!
# Verification of the two-tier cache (`cache.go`)

Shallow embedding of the `cache` package: a two-tier key/value cache with a
pending-write buffer (`qu`, a hash map from key to `item`) and an ordered
index (`tr`, a B-tree of `item`s keyed by `Key`), drained by a background
merge worker (`queueWorker`).

Modelling choices:
* Go `interface{}` values stored in the cache are modelled by the inductive
  type `GoVal`.  Go `nil` — the delete sentinel / absent marker — is the
  constructor `GoVal.vnil`.  The dynamic integer kinds `int` (64-bit) and
  `int64` are separate constructors carrying a mathematical integer that is
  kept in two's-complement range by `wrap64`; other dynamic types that the
  code can only pass through unchanged (`int32`, `uint`, `float64`, `string`)
  are constructors carrying an uninterpreted payload.
* Both tiers are modelled as association lists with in-place update, which
  realises exactly the `get` / `insert-or-replace` / `delete` interface the
  code uses on the Go map and on the `google/btree` collaborator (the btree
  itself is an external collaborator; only its map behaviour matters here).
* The background drain is modelled by `queueWorkerStep ce j`: one iteration
  of the worker loop popping the (arbitrary) key `j` from the buffer and
  applying it to the index — delete when the popped value is the sentinel,
  insert-or-replace otherwise.  Channel signalling only affects scheduling,
  never the logical state, so it is not part of the state.
-/

/-- Dynamic Go values as stored in the cache.  `vnil` is Go `nil`, the
reserved delete sentinel / absent marker. -/
inductive GoVal where
  | vnil : GoVal
  | vint (n : Int) : GoVal
  | vint64 (n : Int) : GoVal
  | vint32 (n : Int) : GoVal
  | vuint (n : Nat) : GoVal
  | vfloat64 (bits : Nat) : GoVal
  | vstr (s : String) : GoVal
deriving DecidableEq, Repr

/-- Two's-complement wrap-around of 64-bit Go integer arithmetic. -/
def wrap64 (n : Int) : Int :=
  (n + 2 ^ 63) % 2 ^ 64 - 2 ^ 63

/-- Association-list lookup: the value of the first binding of `k`, as the Go
map lookup `ce.qu[key]` and the btree `tr.Get(item{Key: key})`. -/
def lookupKV : List (String × GoVal) → String → Option GoVal
  | [], _ => none
  | (k', v) :: t, k => if k' = k then some v else lookupKV t k

/-- Association-list insert-or-replace (in place), as the Go map assignment
`qu[key] = item{...}` and the btree `ReplaceOrInsert`. -/
def setKV : List (String × GoVal) → String → GoVal → List (String × GoVal)
  | [], k, v => [(k, v)]
  | (k', v') :: t, k, v => if k' = k then (k, v) :: t else (k', v') :: setKV t k v

/-- Association-list delete, as the Go map `delete(qu, key)` and the btree
`Delete`. -/
def delKV : List (String × GoVal) → String → List (String × GoVal)
  | [], _ => []
  | (k', v') :: t, k => if k' = k then delKV t k else (k', v') :: delKV t k

/-- The logical cache state: the Pending Buffer `qu` and the Ordered Index
`tr`.  The channels, locks and degree of the Go struct carry no logical
state. -/
structure Cache where
  qu : List (String × GoVal)
  tr : List (String × GoVal)
deriving DecidableEq, Repr

/-- `NewCache` (and `NewCacheDegree`): a fresh cache with both tiers empty,
as established by the constructor's call to `Flush`. -/
def NewCache : Cache :=
  { qu := [], tr := [] }

namespace Cache

/-- `Flush`: resets both tiers — a fresh btree and a fresh map. -/
def Flush (_ce : Cache) : Cache :=
  { qu := [], tr := [] }

/-- `Get`: check the Pending Buffer; on a hit return the buffered value
(which is `vnil` for a tombstone); otherwise fall back to the Ordered Index;
otherwise return `vnil`.  The source takes only read locks and performs no
writes, so the translation is a pure function of the state. -/
def Get (ce : Cache) (key : String) : GoVal :=
  match lookupKV ce.qu key with
  | some im => im
  | none =>
    match lookupKV ce.tr key with
    | some v => v
    | none => .vnil

/-- `Set`: store the value into the Pending Buffer (the value may be the
delete sentinel) and signal the worker (the signal carries no state). -/
def Set (ce : Cache) (key : String) (val : GoVal) : Cache :=
  { ce with qu := setKV ce.qu key val }

/-- `Del`: `Set` with the delete sentinel. -/
def Del (ce : Cache) (key : String) : Cache :=
  ce.Set key .vnil

/-- `GetOrSet`: on a buffer hit return the buffered value with
`found = true`; else on an index hit return the index value with
`found = true`; else insert the new value into the buffer and return it with
`found = false`.  Result: (state after the call, returned value, found). -/
def GetOrSet (ce : Cache) (key : String) (newVal : GoVal) :
    Cache × GoVal × Bool :=
  match lookupKV ce.qu key with
  | some im => (ce, im, true)
  | none =>
    match lookupKV ce.tr key with
    | none => ({ ce with qu := setKV ce.qu key newVal }, newVal, false)
    | some v => (ce, v, true)

/-- `GetAndSet`: on a buffer hit apply `f` to the buffered value, store the
result back into the buffer and return it; else on an index hit apply `f` to
the index value, store the result into the buffer and return it; else return
`vnil` without touching the state.  Result: (state after, returned value). -/
def GetAndSet (ce : Cache) (key : String) (f : GoVal → GoVal) :
    Cache × GoVal :=
  match lookupKV ce.qu key with
  | some im =>
    let newVal := f im
    ({ ce with qu := setKV ce.qu key newVal }, newVal)
  | none =>
    match lookupKV ce.tr key with
    | none => (ce, .vnil)
    | some v =>
      let newVal := f v
      ({ ce with qu := setKV ce.qu key newVal }, newVal)

/-- The type switch inside `Inc`: add `x` when the dynamic type is `int` or
`int64` (preserving the type, with 64-bit wrap-around), pass anything else
through unchanged. -/
def incTransform (x : Int) (val2 : GoVal) : GoVal :=
  match val2 with
  | .vint n => .vint (wrap64 (n + x))
  | .vint64 n => .vint64 (wrap64 (n + x))
  | v => v

/-- The type switch inside `Dec`: subtract `x` when the dynamic type is `int`
or `int64`, pass anything else through unchanged. -/
def decTransform (x : Int) (val2 : GoVal) : GoVal :=
  match val2 with
  | .vint n => .vint (wrap64 (n - x))
  | .vint64 n => .vint64 (wrap64 (n - x))
  | v => v

/-- `Inc`: `GetAndSet` with the increment type switch. -/
def Inc (ce : Cache) (key : String) (x : Int) : Cache × GoVal :=
  ce.GetAndSet key (incTransform x)

/-- `Dec`: `GetAndSet` with the decrement type switch. -/
def Dec (ce : Cache) (key : String) (x : Int) : Cache × GoVal :=
  ce.GetAndSet key (decTransform x)

/-- One iteration of the `queueWorker` drain loop, popping the (arbitrarily
chosen) key `j`: remove `j` from the Pending Buffer, then delete it from the
Ordered Index when the popped value is the sentinel, insert-or-replace
otherwise.  When `j` is not in the buffer nothing happens (the worker never
picks such a key). -/
def queueWorkerStep (ce : Cache) (j : String) : Cache :=
  match lookupKV ce.qu j with
  | none => ce
  | some v =>
    if v ≠ .vnil then
      { qu := delKV ce.qu j, tr := setKV ce.tr j v }
    else
      { qu := delKV ce.qu j, tr := delKV ce.tr j }

/-- A finite sequence of drain iterations, one per listed key. -/
def queueWorkerRun (ce : Cache) (js : List String) : Cache :=
  js.foldl queueWorkerStep ce

end Cache

/-- Modelled from the spec: the invariant of §3 — "at any instant, the
logical value for a key is value in Pending Buffer if present, else value in
Ordered Index if present, else absent."  (The buffered value of a tombstone
is the sentinel, i.e. absent.)  This definition follows the spec's words and
is compared against the code's `Get`. -/
def logicalValue (ce : Cache) (k : String) : GoVal :=
  match lookupKV ce.qu k with
  | some v => v
  | none =>
    match lookupKV ce.tr k with
    | some v => v
    | none => .vnil

/-- Recognised integer kinds of the `Inc`/`Dec` type switch. -/
def isIntKind : GoVal → Bool
  | .vint _ => true
  | .vint64 _ => true
  | _ => false

/-! ## Association-list lemmas -/

theorem lookupKV_setKV_eq (l : List (String × GoVal)) (k : String) (v : GoVal) :
    lookupKV (setKV l k v) k = some v := by
  induction l with
  | nil => simp [setKV, lookupKV]
  | cons p t ih =>
    obtain ⟨k', v'⟩ := p
    by_cases hk : k' = k
    · simp [setKV, hk, lookupKV]
    · simp [setKV, hk, lookupKV, ih]

theorem lookupKV_setKV_ne (l : List (String × GoVal)) {j k : String} (hjk : j ≠ k)
    (v : GoVal) : lookupKV (setKV l k v) j = lookupKV l j := by
  have hkj : ¬(k = j) := fun he => hjk he.symm
  induction l with
  | nil => simp [setKV, lookupKV, hkj]
  | cons p t ih =>
    obtain ⟨k', v'⟩ := p
    by_cases hk : k' = k
    · subst hk
      simp [setKV, lookupKV, hkj]
    · simp [setKV, hk, lookupKV, ih]

theorem lookupKV_setKV_self {l : List (String × GoVal)} {k : String} {v : GoVal}
    (h : lookupKV l k = some v) : setKV l k v = l := by
  induction l with
  | nil => simp [lookupKV] at h
  | cons p t ih =>
    obtain ⟨k', v'⟩ := p
    by_cases hk : k' = k
    · subst hk
      simp [lookupKV] at h
      simp [setKV, h]
    · simp [lookupKV, hk] at h
      simp [setKV, hk, ih h]

theorem lookupKV_delKV_eq (l : List (String × GoVal)) (k : String) :
    lookupKV (delKV l k) k = none := by
  induction l with
  | nil => simp [delKV, lookupKV]
  | cons p t ih =>
    obtain ⟨k', v'⟩ := p
    by_cases hk : k' = k
    · simp [delKV, hk, ih]
    · simp [delKV, hk, lookupKV, ih]

theorem lookupKV_delKV_ne (l : List (String × GoVal)) {j k : String} (hjk : j ≠ k) :
    lookupKV (delKV l k) j = lookupKV l j := by
  have hkj : ¬(k = j) := fun he => hjk he.symm
  induction l with
  | nil => simp [delKV]
  | cons p t ih =>
    obtain ⟨k', v'⟩ := p
    by_cases hk : k' = k
    · subst hk
      simp [delKV, lookupKV, hkj, ih]
    · simp [delKV, hk, lookupKV, ih]

/-! ## Logical-value lemmas -/

theorem logicalValue_Set_eq (ce : Cache) (k : String) (v : GoVal) :
    logicalValue (ce.Set k v) k = v := by
  simp [logicalValue, Cache.Set, lookupKV_setKV_eq]

theorem logicalValue_queueWorkerStep (ce : Cache) (j k : String) :
    logicalValue (ce.queueWorkerStep j) k = logicalValue ce k := by
  unfold Cache.queueWorkerStep
  cases hq : lookupKV ce.qu j with
  | none => rfl
  | some v =>
    by_cases hjk : j = k
    · subst hjk
      by_cases hv : v = GoVal.vnil
      · subst hv
        simp [logicalValue, lookupKV_delKV_eq, hq]
      · simp [hv, logicalValue, lookupKV_delKV_eq, lookupKV_setKV_eq, hq]
    · have hne : k ≠ j := fun h => hjk h.symm
      by_cases hv : v = GoVal.vnil
      · subst hv
        simp [logicalValue, lookupKV_delKV_ne _ hne]
      · simp [hv, logicalValue, lookupKV_delKV_ne _ hne, lookupKV_setKV_ne _ hne]

theorem logicalValue_queueWorkerRun (ce : Cache) (js : List String) (k : String) :
    logicalValue (ce.queueWorkerRun js) k = logicalValue ce k := by
  induction js generalizing ce with
  | nil => rfl
  | cons j t ih =>
    calc logicalValue (Cache.queueWorkerRun (ce.queueWorkerStep j) t) k
        = logicalValue (ce.queueWorkerStep j) k := ih _
      _ = logicalValue ce k := logicalValue_queueWorkerStep ce j k

/-! ## `GetAndSet` lemmas -/

theorem incTransform_not_intKind {v : GoVal} (h : isIntKind v = false) (x : Int) :
    Cache.incTransform x v = v := by
  cases v <;> first | rfl | simp [isIntKind] at h

theorem decTransform_not_intKind {v : GoVal} (h : isIntKind v = false) (x : Int) :
    Cache.decTransform x v = v := by
  cases v <;> first | rfl | simp [isIntKind] at h

theorem getAndSet_snd (ce : Cache) (k : String) (f : GoVal → GoVal)
    (hf : f GoVal.vnil = GoVal.vnil) :
    (ce.GetAndSet k f).2 = f (logicalValue ce k) := by
  cases hq : lookupKV ce.qu k with
  | some v => simp [Cache.GetAndSet, logicalValue, hq]
  | none =>
    cases ht : lookupKV ce.tr k with
    | some v => simp [Cache.GetAndSet, logicalValue, hq, ht]
    | none => simp [Cache.GetAndSet, logicalValue, hq, ht, hf]

theorem getAndSet_logical (ce : Cache) (k : String) (f : GoVal → GoVal)
    (hf : f GoVal.vnil = GoVal.vnil) :
    logicalValue (ce.GetAndSet k f).1 k = f (logicalValue ce k) := by
  cases hq : lookupKV ce.qu k with
  | some v => simp [Cache.GetAndSet, logicalValue, hq, lookupKV_setKV_eq]
  | none =>
    cases ht : lookupKV ce.tr k with
    | some v => simp [Cache.GetAndSet, logicalValue, hq, ht, lookupKV_setKV_eq]
    | none => simp [Cache.GetAndSet, logicalValue, hq, ht, hf]

theorem getAndSet_preserve (ce : Cache) (k : String) (f : GoVal → GoVal)
    (hf : f (logicalValue ce k) = logicalValue ce k) :
    (ce.GetAndSet k f).2 = logicalValue ce k
    ∧ (ce.GetAndSet k f).1.tr = ce.tr
    ∧ (∀ j, logicalValue (ce.GetAndSet k f).1 j = logicalValue ce j)
    ∧ ((lookupKV ce.qu k).isSome → (ce.GetAndSet k f).1 = ce)
    ∧ (lookupKV ce.qu k = none → lookupKV ce.tr k = none → (ce.GetAndSet k f).1 = ce)
    ∧ (lookupKV ce.qu k = none → ∀ v, lookupKV ce.tr k = some v →
        (ce.GetAndSet k f).1.qu = setKV ce.qu k v) := by
  cases hq : lookupKV ce.qu k with
  | some v =>
    have hv : logicalValue ce k = v := by simp [logicalValue, hq]
    rw [hv] at hf
    have hstate : (ce.GetAndSet k f).1 = ce := by
      simp [Cache.GetAndSet, hq, hf, lookupKV_setKV_self hq]
    refine ⟨?_, ?_, ?_, ?_, ?_, ?_⟩
    · simp [Cache.GetAndSet, hq, hf, hv]
    · rw [hstate]
    · intro j; rw [hstate]
    · intro _; exact hstate
    · intro hcontra; exact Option.noConfusion hcontra
    · intro hcontra; exact Option.noConfusion hcontra
  | none =>
    cases ht : lookupKV ce.tr k with
    | none =>
      have hstate : ce.GetAndSet k f = (ce, GoVal.vnil) := by
        simp [Cache.GetAndSet, hq, ht]
      refine ⟨?_, ?_, ?_, ?_, ?_, ?_⟩
      · rw [hstate]; simp [logicalValue, hq, ht]
      · rw [hstate]
      · intro j; rw [hstate]
      · intro hcontra; simp at hcontra
      · intro _ _; rw [hstate]
      · intro _ v hcontra; exact Option.noConfusion hcontra
    | some v =>
      have hv : logicalValue ce k = v := by simp [logicalValue, hq, ht]
      rw [hv] at hf
      have hstate : ce.GetAndSet k f = ({ ce with qu := setKV ce.qu k v }, v) := by
        simp [Cache.GetAndSet, hq, ht, hf]
      refine ⟨?_, ?_, ?_, ?_, ?_, ?_⟩
      · rw [hstate, hv]
      · rw [hstate]
      · intro j
        by_cases hjk : j = k
        · subst hjk
          rw [hstate, hv]
          simp [logicalValue, lookupKV_setKV_eq]
        · rw [hstate]
          simp [logicalValue, lookupKV_setKV_ne _ hjk]
      · intro hcontra; simp at hcontra
      · intro _ hcontra; exact Option.noConfusion hcontra
      · intro _ w hw
        injection hw with hvw
        subst hvw
        rw [hstate]

/-! ## Claim theorems -/

/-- C1: for every key `k` and non-nil value `v`, `Set k v` followed by
`Get k` — with no intervening write to `k` but with any number of
merge-worker drain iterations (on any keys) in between — returns `v`, from
every starting cache state. -/
theorem set_then_get_after_drains (ce : Cache) (k : String) (v : GoVal)
    (js : List String) (_hv : v ≠ GoVal.vnil) :
    ((ce.Set k v).queueWorkerRun js).Get k = v :=
  calc ((ce.Set k v).queueWorkerRun js).Get k
      = logicalValue ((ce.Set k v).queueWorkerRun js) k := rfl
    _ = logicalValue (ce.Set k v) k := logicalValue_queueWorkerRun _ js k
    _ = v := logicalValue_Set_eq ce k v

/-- Witness for C1: from the fresh cache, `Set "a" 1` then one drain
iteration on `"a"` then `Get "a"` returns `1`. -/
theorem set_then_get_after_drains_witness :
    ((NewCache.Set "a" (GoVal.vint 1)).queueWorkerRun ["a"]).Get "a"
      = GoVal.vint 1 :=
  set_then_get_after_drains NewCache "a" (GoVal.vint 1) ["a"] (by decide)

/-- C2: for every key `k` and value `v`, `Set k v` then `Del k` then `Get k`
returns the absent marker, from every starting state and with no drain
needed in between. -/
theorem set_del_then_get (ce : Cache) (k : String) (v : GoVal) :
    (((ce.Set k v).Del k)).Get k = GoVal.vnil := by
  simp [Cache.Get, Cache.Del, Cache.Set, lookupKV_setKV_eq]

/-- C7: one merge-worker drain iteration — popping an arbitrary buffered key
`j` and applying it to the Ordered Index (delete on tombstone,
insert-or-replace otherwise) — preserves the logical value of every key. -/
theorem queueWorkerStep_preserves_logicalValue (ce : Cache) (j k : String) :
    logicalValue (ce.queueWorkerStep j) k = logicalValue ce k :=
  logicalValue_queueWorkerStep ce j k

/-- C8: `Flush` resets both tiers, so after it every `Get` returns the
absent marker, from every starting cache state (in particular after
`Set k 1`). -/
theorem flush_then_get (ce : Cache) (k : String) :
    (ce.Flush).Get k = GoVal.vnil := rfl

/-- C9: `Get` follows the two-tier rule: it returns exactly the logical
value of the key — buffer entry first (the tombstone being the absent
marker), else the index value, else absent.  `Get` is translated as a pure
function of the state (the source takes only read locks and performs no
writes), so it leaves both tiers unchanged by construction. -/
theorem get_eq_logicalValue (ce : Cache) (k : String) :
    ce.Get k = logicalValue ce k := rfl

/-- C3 fails on the code: when the Pending Buffer holds a delete tombstone
for `k` (here reached by `Set "k" "a"` then `Del "k"`), `GetOrSet` does not
insert the new value and does not return `(newVal, false)`; it returns the
tombstone's `nil` with `found = true` and leaves the state unchanged. -/
theorem getOrSet_tombstone_counterexample :
    (((NewCache.Set "k" (GoVal.vstr "a")).Del "k").GetOrSet "k"
        (GoVal.vint 5)).2 ≠ ((GoVal.vint 5 : GoVal), false)
    ∧ (((NewCache.Set "k" (GoVal.vstr "a")).Del "k").GetOrSet "k"
        (GoVal.vint 5)).1 = ((NewCache.Set "k" (GoVal.vstr "a")).Del "k") := by
  decide

/-- C3 amended: `GetOrSet` decides on buffer *presence*, not on logical
presence — on any buffer hit (a delete tombstone included) it returns the
buffered value (`nil` for a tombstone) with `found = true` and leaves the
cache unchanged; on a buffer miss it returns an index hit with `found = true`
unchanged; only when both tiers miss does it insert `newVal` into the
Pending Buffer and return `(newVal, false)`. -/
theorem getOrSet_cases (ce : Cache) (k : String) (newVal : GoVal) :
    (∀ v, lookupKV ce.qu k = some v → ce.GetOrSet k newVal = (ce, v, true))
    ∧ (lookupKV ce.qu k = none → ∀ v, lookupKV ce.tr k = some v →
        ce.GetOrSet k newVal = (ce, v, true))
    ∧ (lookupKV ce.qu k = none → lookupKV ce.tr k = none →
        ce.GetOrSet k newVal
          = ({ ce with qu := setKV ce.qu k newVal }, newVal, false)) := by
  refine ⟨?_, ?_, ?_⟩
  · intro v hq
    simp [Cache.GetOrSet, hq]
  · intro hq v ht
    simp [Cache.GetOrSet, hq, ht]
  · intro hq ht
    simp [Cache.GetOrSet, hq, ht]

/-- Witness for C3 (amended): on the tombstone state reached by
`Set "k" "a"; Del "k"`, `GetOrSet "k" 5` returns the buffered `nil` with
`found = true` and leaves the cache unchanged. -/
theorem getOrSet_cases_witness :
    (((NewCache.Set "k" (GoVal.vstr "a")).Del "k").GetOrSet "k" (GoVal.vint 5))
      = (((NewCache.Set "k" (GoVal.vstr "a")).Del "k"), GoVal.vnil, true) :=
  (getOrSet_cases ((NewCache.Set "k" (GoVal.vstr "a")).Del "k") "k"
    (GoVal.vint 5)).1 GoVal.vnil (by decide)

/-- C4 fails on the code: with a delete tombstone for `k` in the Pending
Buffer (a state in which `k` is logically absent, reached by
`Set "k" "a"; Del "k"`), `GetAndSet` does invoke `f` — here on `nil`,
rewriting the buffer entry to `f nil = 7` and returning `7` — rather than
being a no-op returning the absent marker. -/
theorem getAndSet_tombstone_counterexample :
    ¬ (((NewCache.Set "k" (GoVal.vstr "a")).Del "k").GetAndSet "k"
          (fun _ => GoVal.vint 7)
        = (((NewCache.Set "k" (GoVal.vstr "a")).Del "k"), GoVal.vnil)) := by
  decide

/-- C4 amended: only when `k` has no entry at all in the Pending Buffer (not
even a tombstone) and no entry in the Ordered Index is `GetAndSet` a no-op:
it returns the absent marker, leaves the cache unchanged, and its result
does not depend on `f` (so `f` is not invoked). -/
theorem getAndSet_absent_noop (ce : Cache) (k : String)
    (hq : lookupKV ce.qu k = none) (ht : lookupKV ce.tr k = none)
    (f : GoVal → GoVal) :
    ce.GetAndSet k f = (ce, GoVal.vnil) := by
  simp [Cache.GetAndSet, hq, ht]

/-- Witness for C4 (amended): on the fresh cache, `GetAndSet "a"` with a
transform that would store `7` is a no-op returning the absent marker. -/
theorem getAndSet_absent_noop_witness :
    NewCache.GetAndSet "a" (fun _ => GoVal.vint 7) = (NewCache, GoVal.vnil) :=
  getAndSet_absent_noop NewCache "a" rfl rfl (fun _ => GoVal.vint 7)

/-- C5 fails on the code: with `"text"` for `"k"` in the Ordered Index and
an empty Pending Buffer (a state reached by `Set "k" "text"` followed by one
drain iteration), `Inc "k" 5` does record a mutation — it writes the
unchanged `"text"` into the Pending Buffer, so the buffer is not exactly as
before the call (the returned value is unchanged, as the claim says). -/
theorem inc_nonInteger_counterexample :
    isIntKind (logicalValue
        ((NewCache.Set "k" (GoVal.vstr "text")).queueWorkerStep "k") "k")
      = false
    ∧ (((NewCache.Set "k" (GoVal.vstr "text")).queueWorkerStep "k").Inc
          "k" 5).1
        ≠ (NewCache.Set "k" (GoVal.vstr "text")).queueWorkerStep "k" := by
  decide

/-- C5 amended: when the current logical value of `k` is not of a recognised
integer kind (absence included), `Inc` and `Dec` return that value
unchanged, never touch the Ordered Index, and change the logical value of no
key; the whole state is exactly as before whenever `k` has a Pending Buffer
entry or is absent from both tiers — but when the value comes from the
Ordered Index, the unchanged value is re-recorded into the Pending Buffer
(a logically redundant entry). -/
theorem inc_dec_nonInteger (ce : Cache) (k : String) (x : Int)
    (h : isIntKind (logicalValue ce k) = false) :
    ((ce.Inc k x).2 = logicalValue ce k
      ∧ (ce.Inc k x).1.tr = ce.tr
      ∧ (∀ j, logicalValue (ce.Inc k x).1 j = logicalValue ce j)
      ∧ ((lookupKV ce.qu k).isSome → (ce.Inc k x).1 = ce)
      ∧ (lookupKV ce.qu k = none → lookupKV ce.tr k = none →
          (ce.Inc k x).1 = ce)
      ∧ (lookupKV ce.qu k = none → ∀ v, lookupKV ce.tr k = some v →
          (ce.Inc k x).1.qu = setKV ce.qu k v))
    ∧ ((ce.Dec k x).2 = logicalValue ce k
      ∧ (ce.Dec k x).1.tr = ce.tr
      ∧ (∀ j, logicalValue (ce.Dec k x).1 j = logicalValue ce j)
      ∧ ((lookupKV ce.qu k).isSome → (ce.Dec k x).1 = ce)
      ∧ (lookupKV ce.qu k = none → lookupKV ce.tr k = none →
          (ce.Dec k x).1 = ce)
      ∧ (lookupKV ce.qu k = none → ∀ v, lookupKV ce.tr k = some v →
          (ce.Dec k x).1.qu = setKV ce.qu k v)) := by
  have hfi : Cache.incTransform x (logicalValue ce k) = logicalValue ce k :=
    incTransform_not_intKind h x
  have hfd : Cache.decTransform x (logicalValue ce k) = logicalValue ce k :=
    decTransform_not_intKind h x
  exact ⟨getAndSet_preserve ce k (Cache.incTransform x) hfi,
         getAndSet_preserve ce k (Cache.decTransform x) hfd⟩

/-- Witness for C5 (amended): on the index-resident state reached by
`Set "a" "text"` and one drain iteration, `Inc "a" 5` returns `"text"`
unchanged. -/
theorem inc_dec_nonInteger_witness :
    isIntKind (logicalValue
        ((NewCache.Set "a" (GoVal.vstr "text")).queueWorkerStep "a") "a")
      = false
    ∧ (((NewCache.Set "a" (GoVal.vstr "text")).queueWorkerStep "a").Inc
          "a" 5).2
        = logicalValue
            ((NewCache.Set "a" (GoVal.vstr "text")).queueWorkerStep "a") "a" :=
  ⟨by decide,
   (inc_dec_nonInteger
      ((NewCache.Set "a" (GoVal.vstr "text")).queueWorkerStep "a") "a" 5
      (by decide)).1.1⟩

/-- C6: from any state with no pending-buffer entry for `k`, the scenario
`Set k 10; Inc k 5; Dec k 3; Get k` yields `15`, `12` and `12`. -/
theorem numeric_scenario (ce : Cache) (k : String)
    (_h : lookupKV ce.qu k = none) :
    ((ce.Set k (GoVal.vint 10)).Inc k 5).2 = GoVal.vint 15
    ∧ ((((ce.Set k (GoVal.vint 10)).Inc k 5).1).Dec k 3).2 = GoVal.vint 12
    ∧ (((((ce.Set k (GoVal.vint 10)).Inc k 5).1).Dec k 3).1).Get k
        = GoVal.vint 12 := by
  have h15 : Cache.incTransform 5 (GoVal.vint 10) = GoVal.vint 15 := by
    simp [Cache.incTransform]
    decide
  have h12 : Cache.decTransform 3 (GoVal.vint 15) = GoVal.vint 12 := by
    simp [Cache.decTransform]
    decide
  have e1 : (ce.Set k (GoVal.vint 10)).Inc k 5
      = (Cache.mk (setKV (setKV ce.qu k (GoVal.vint 10)) k (GoVal.vint 15))
          ce.tr, GoVal.vint 15) := by
    simp [Cache.Inc, Cache.GetAndSet, Cache.Set, lookupKV_setKV_eq, h15]
  have e2 : (Cache.mk (setKV (setKV ce.qu k (GoVal.vint 10)) k (GoVal.vint 15))
        ce.tr).Dec k 3
      = (Cache.mk (setKV (setKV (setKV ce.qu k (GoVal.vint 10)) k
          (GoVal.vint 15)) k (GoVal.vint 12)) ce.tr, GoVal.vint 12) := by
    simp [Cache.Dec, Cache.GetAndSet, lookupKV_setKV_eq, h12]
  refine ⟨by rw [e1], by rw [e1, e2], ?_⟩
  rw [e1, e2]
  simp [Cache.Get, lookupKV_setKV_eq]

/-- Witness for C6: the scenario on the fresh cache at key `"a"`. -/
theorem numeric_scenario_witness :
    ((NewCache.Set "a" (GoVal.vint 10)).Inc "a" 5).2 = GoVal.vint 15
    ∧ ((((NewCache.Set "a" (GoVal.vint 10)).Inc "a" 5).1).Dec "a" 3).2
        = GoVal.vint 12
    ∧ (((((NewCache.Set "a" (GoVal.vint 10)).Inc "a" 5).1).Dec "a" 3).1).Get
        "a" = GoVal.vint 12 :=
  numeric_scenario NewCache "a" rfl

/-- C10: the integer kinds recognised by `Inc` and `Dec` are exactly the
dynamic types `int` and `int64`, the stored kind is preserved, the result is
both returned and stored (it becomes the new logical value), arithmetic is
64-bit wrap-around, and every other kind (`int32`, `uint`, `float64`,
strings, absence) is returned unchanged. -/
theorem inc_dec_integer_kinds (ce : Cache) (k : String) (x : Int) :
    (∀ n, logicalValue ce k = GoVal.vint n →
        (ce.Inc k x).2 = GoVal.vint (wrap64 (n + x))
        ∧ logicalValue (ce.Inc k x).1 k = GoVal.vint (wrap64 (n + x))
        ∧ (ce.Dec k x).2 = GoVal.vint (wrap64 (n - x))
        ∧ logicalValue (ce.Dec k x).1 k = GoVal.vint (wrap64 (n - x)))
    ∧ (∀ n, logicalValue ce k = GoVal.vint64 n →
        (ce.Inc k x).2 = GoVal.vint64 (wrap64 (n + x))
        ∧ logicalValue (ce.Inc k x).1 k = GoVal.vint64 (wrap64 (n + x))
        ∧ (ce.Dec k x).2 = GoVal.vint64 (wrap64 (n - x))
        ∧ logicalValue (ce.Dec k x).1 k = GoVal.vint64 (wrap64 (n - x)))
    ∧ (∀ v, isIntKind v = false → logicalValue ce k = v →
        (ce.Inc k x).2 = v ∧ (ce.Dec k x).2 = v) := by
  have hi2 : (ce.Inc k x).2 = Cache.incTransform x (logicalValue ce k) :=
    getAndSet_snd ce k (Cache.incTransform x) rfl
  have hd2 : (ce.Dec k x).2 = Cache.decTransform x (logicalValue ce k) :=
    getAndSet_snd ce k (Cache.decTransform x) rfl
  have hil : logicalValue (ce.Inc k x).1 k
      = Cache.incTransform x (logicalValue ce k) :=
    getAndSet_logical ce k (Cache.incTransform x) rfl
  have hdl : logicalValue (ce.Dec k x).1 k
      = Cache.decTransform x (logicalValue ce k) :=
    getAndSet_logical ce k (Cache.decTransform x) rfl
  refine ⟨?_, ?_, ?_⟩
  · intro n hn
    rw [hn] at hi2 hd2 hil hdl
    exact ⟨hi2, hil, hd2, hdl⟩
  · intro n hn
    rw [hn] at hi2 hd2 hil hdl
    exact ⟨hi2, hil, hd2, hdl⟩
  · intro v hv hlog
    rw [hlog] at hi2 hd2
    rw [hi2, hd2, incTransform_not_intKind hv x, decTransform_not_intKind hv x]
    exact ⟨rfl, rfl⟩

/-- Witness for C10: on a cache whose buffer holds `int64 3` at `"a"`,
`Inc "a" 2` returns and stores `int64` `wrap64 (3 + 2)` and `Dec "a" 2`
returns and stores `int64` `wrap64 (3 - 2)`. -/
theorem inc_dec_integer_kinds_witness :
    ((NewCache.Set "a" (GoVal.vint64 3)).Inc "a" 2).2
        = GoVal.vint64 (wrap64 (3 + 2))
    ∧ logicalValue ((NewCache.Set "a" (GoVal.vint64 3)).Inc "a" 2).1 "a"
        = GoVal.vint64 (wrap64 (3 + 2))
    ∧ ((NewCache.Set "a" (GoVal.vint64 3)).Dec "a" 2).2
        = GoVal.vint64 (wrap64 (3 - 2))
    ∧ logicalValue ((NewCache.Set "a" (GoVal.vint64 3)).Dec "a" 2).1 "a"
        = GoVal.vint64 (wrap64 (3 - 2)) :=
  (inc_dec_integer_kinds (NewCache.Set "a" (GoVal.vint64 3)) "a" 2).2.1 3
    (by decide)
